import Mathlib

/-!
Verification of the RGB/LCh color-space conversion and gamut-mapping engine
(`RgbColorSpace`, `PolarPointF`) of the perceptualcolor repository.

Modelling conventions:
* C++ `double`/`qreal` values are modelled as `ℚ` (the claims under study are
  about control flow and exact comparisons, not about binary floating point).
* The external LittleCMS collaborators (`cmsDoTransform` on the profile
  transforms, and the trigonometric `cmsLCh2Lab`) are opaque functions supplied
  by a `Backend` record; the engine's own code is translated faithfully.
* The C++ `while` loops are translated as fuel-indexed recursions; theorems
  below show the fuel used is always sufficient, so the recursions coincide
  with the source loops.
-/

namespace PerceptualColor

/-- Truncation toward zero on `ℚ`, as C's `trunc` (used by C `fmod`). -/
def truncQ (q : ℚ) : ℤ := if q < 0 then ⌈q⌉ else ⌊q⌋

/-- C's `fmod a b = a - b * trunc (a / b)` (for `b > 0`), on `ℚ`. -/
def fmodQ (a b : ℚ) : ℚ := a - b * truncQ (a / b)

/-- Polar coordinates, `polarpointf.h`: fields `m_radial`, `m_angleDegree`. -/
structure PolarPointF where
  m_radial : ℚ
  m_angleDegree : ℚ
deriving DecidableEq

/-- `PolarPointF::normalizedAngleDegree` (polarpointf.cpp lines 131-138):
`fmod` into `(-360, 360)`, then `+ 360` if negative. -/
def normalizedAngleDegree (angleDegree : ℚ) : ℚ :=
  if fmodQ angleDegree 360 < 0 then fmodQ angleDegree 360 + 360
  else fmodQ angleDegree 360

/-- The `PolarPointF(newRadial, newAngleDegree)` constructor
(polarpointf.cpp lines 46-55). -/
def polarPointF (newRadial newAngleDegree : ℚ) : PolarPointF :=
  if newRadial < 0 then
    { m_radial := newRadial * (-1),
      m_angleDegree := normalizedAngleDegree (newAngleDegree + 180) }
  else
    { m_radial := newRadial,
      m_angleDegree := normalizedAngleDegree newAngleDegree }

/-- `PolarPointF::radial` accessor. -/
def PolarPointF.radial (p : PolarPointF) : ℚ := p.m_radial

/-- `PolarPointF::angleDegree` accessor. -/
def PolarPointF.angleDegree (p : PolarPointF) : ℚ := p.m_angleDegree

/-- `PolarPointF::isSamePoint` (polarpointf.cpp lines 90-98). -/
def isSamePoint (p other : PolarPointF) : Bool :=
  decide (p.m_radial = other.m_radial) &&
    (decide (p.m_angleDegree = other.m_angleDegree) || decide (p.m_radial = 0))

/-- LCh color, `lchdouble.h`. -/
structure LchDouble where
  l : ℚ
  c : ℚ
  h : ℚ
deriving DecidableEq

/-- Lab color, LittleCMS `cmsCIELab`. -/
structure CmsCIELab where
  L : ℚ
  a : ℚ
  b : ℚ
deriving DecidableEq

/-- RGB color with rational channels, `RgbDouble` / `Helper::cmsRGB`. -/
structure RgbDouble where
  red : ℚ
  green : ℚ
  blue : ℚ
deriving DecidableEq

/-- `Helper::gamutPrecision` (helper.h line 145): the search precision 0.001. -/
def gamutPrecision : ℚ := 1 / 1000

/-- `isInRange<cmsFloat64Number>(low, x, high)`: `low ≤ x ∧ x ≤ high`. -/
def isInRange (low x high : ℚ) : Bool := decide (low ≤ x ∧ x ≤ high)

/-- The external LittleCMS collaborators consumed by `RgbColorSpace`.
The three profile transforms may fail to build (`cmsCreateTransform`
returning null is modelled as `none`); `lchToLab` models `cmsLCh2Lab`,
the (trigonometric, profile-independent) LCh→Lab conversion. -/
structure Backend where
  labToRgb : Option (CmsCIELab → RgbDouble)
  labToRgb16 : Option (CmsCIELab → RgbDouble)
  rgbToLab : Option (RgbDouble → CmsCIELab)
  lchToLab : LchDouble → CmsCIELab

/-- The state of a constructed `RgbColorSpace` that the gamut routines read:
the float-precision Lab→RGB transform, the LCh→Lab conversion, and the two
derived scalars `m_blackpointL`, `m_whitepointL`. -/
structure RgbColorSpaceState where
  labToRgb : CmsCIELab → RgbDouble
  lchToLab : LchDouble → CmsCIELab
  m_blackpointL : ℚ
  m_whitepointL : ℚ

/-- `RgbColorSpace::isInGamut(const cmsCIELab&)` (rgbcolorspace.cpp
lines 482-495): transform to RGB, then all three channels in `[0, 1]`. -/
def isInGamutLab (labToRgb : CmsCIELab → RgbDouble) (lab : CmsCIELab) : Bool :=
  let rgb := labToRgb lab
  isInRange 0 rgb.red 1 && isInRange 0 rgb.green 1 && isInRange 0 rgb.blue 1

/-- `RgbColorSpace::isInGamut(const LchDouble&)` (rgbcolorspace.cpp
lines 462-476): convert LCh to Lab, then test the Lab value. -/
def isInGamutWith (labToRgb : CmsCIELab → RgbDouble)
    (lchToLab : LchDouble → CmsCIELab) (lch : LchDouble) : Bool :=
  isInGamutLab labToRgb (lchToLab lch)

/-- `isInGamut` as a method of the constructed color space. -/
def isInGamut (s : RgbColorSpaceState) (lch : LchDouble) : Bool :=
  isInGamutWith s.labToRgb s.lchToLab lch

/-- `RgbColorSpace::toQColorRgbUnbound(const cmsCIELab&)` (rgbcolorspace.cpp
lines 355-374): `none` models the default-constructed invalid `QColor`. -/
def toQColorRgbUnboundLab (s : RgbColorSpaceState) (lab : CmsCIELab) :
    Option RgbDouble :=
  let rgb := s.labToRgb lab
  if isInRange 0 rgb.red 1 && isInRange 0 rgb.green 1 &&
      isInRange 0 rgb.blue 1 then
    some rgb
  else
    none

/-- `RgbColorSpace::toQColorRgbUnbound(const LchDouble&)` (rgbcolorspace.cpp
lines 382-393): convert LCh to Lab, then the Lab overload. -/
def toQColorRgbUnbound (s : RgbColorSpaceState) (lch : LchDouble) :
    Option RgbDouble :=
  toQColorRgbUnboundLab s (s.lchToLab lch)

/-- The blackpoint scan (rgbcolorspace.cpp lines 209-215):
`while (!isInGamut({l,0,0}) && l < 100) l += gamutPrecision`, starting at 0.
Fuel-indexed; `scanFuel` is proved sufficient below. -/
def scanUp (g : LchDouble → Bool) : ℕ → ℚ → ℚ
  | 0, l => l
  | n + 1, l =>
    if g ⟨l, 0, 0⟩ = false ∧ l < 100 then scanUp g n (l + gamutPrecision) else l

/-- The whitepoint scan (rgbcolorspace.cpp lines 217-221):
`while (!isInGamut({l,0,0}) && l > 0) l -= gamutPrecision`, starting at 100. -/
def scanDown (g : LchDouble → Bool) : ℕ → ℚ → ℚ
  | 0, l => l
  | n + 1, l =>
    if g ⟨l, 0, 0⟩ = false ∧ 0 < l then scanDown g n (l - gamutPrecision) else l

/-- Fuel for the linear scans: the initial condition check plus the at most
`100 / 0.001 = 100000` increments the loop can take. -/
def scanFuel : ℕ := 100001

/-- Outcomes of `RgbColorSpacePrivate::initialize`: `cmsCreateTransform`
returning null for any of the three transforms (lines 192-200), or the
gray-axis boundary search failing (`throw 0`, lines 222-225). -/
inductive InitFailure where
  | transformCreationFailed
  | grayAxisSearchFailed
deriving DecidableEq

/-- `RgbColorSpace::RgbColorSpacePrivate::initialize` (rgbcolorspace.cpp
lines 139-241), restricted to the state the gamut routines read: build the
three transforms (failure if any is null), scan the gray axis for
`m_blackpointL` and `m_whitepointL`, and fail (`throw 0` in the source)
unless `m_whitepointL > m_blackpointL`. -/
def colorSpaceInit (b : Backend) : Except InitFailure RgbColorSpaceState :=
  match b.labToRgb, b.labToRgb16, b.rgbToLab with
  | some f, some _, some _ =>
    let g : LchDouble → Bool := isInGamutWith f b.lchToLab
    let bp := scanUp g scanFuel 0
    let wp := scanDown g scanFuel 100
    if wp ≤ bp then Except.error InitFailure.grayAxisSearchFailed
    else Except.ok ⟨f, b.lchToLab, bp, wp⟩
  | _, _, _ => Except.error InitFailure.transformCreationFailed

/-- Failure modes of `RgbColorSpace::createFromFile` (rgbcolorspace.cpp
lines 93-125): the IO handler or the profile handle being null each yield a
null result; a failing `initialize` yields a null result (transform case) or
an uncaught exception (gray-axis case) — all modelled as `Except.error`. -/
inductive CreationFailure where
  | fileOpenFailed
  | profileParseFailed
  | initFailed (e : InitFailure)
deriving DecidableEq

/-- `RgbColorSpace::createFromFile` (rgbcolorspace.cpp lines 93-125).
`ioHandlerCreated` and `profileOpened` model the success of the external
`IOHandlerFactory::createReadOnly` and `cmsOpenProfileFromIOhandlerTHR`
calls; on success the private `initialize` runs. -/
def createFromFile (ioHandlerCreated profileOpened : Bool) (b : Backend) :
    Except CreationFailure RgbColorSpaceState :=
  if ioHandlerCreated = false then Except.error CreationFailure.fileOpenFailed
  else if profileOpened = false then
    Except.error CreationFailure.profileParseFailed
  else
    match colorSpaceInit b with
    | Except.ok s => Except.ok s
    | Except.error e => Except.error (CreationFailure.initFailed e)

/-- One state of the chroma bisection loop (rgbcolorspace.cpp lines 554-564):
the pair `(lowerChroma.c, upperChroma.c)`. The loop runs
`while (upper - lower > gamutPrecision)`, halving the interval toward the
in-gamut side; fuel-indexed, with sufficiency proved below. -/
def chromaBisect (g : ℚ → Bool) : ℕ → ℚ × ℚ → ℚ × ℚ
  | 0, s => s
  | n + 1, (lo, up) =>
    if gamutPrecision < up - lo then
      if g ((lo + up) / 2) then chromaBisect g n ((lo + up) / 2, up)
      else chromaBisect g n (lo, (lo + up) / 2)
    else (lo, up)

/-- Fuel for the chroma bisection starting from interval width `w`:
`⌈1000 w⌉` steps suffice since the width halves each step and the loop stops
at width `≤ 1/1000`. -/
def bisectFuel (w : ℚ) : ℕ := (⌈1000 * w⌉).toNat

/-- `RgbColorSpace::nearestInGamutColorByAdjustingChroma` (rgbcolorspace.cpp
lines 535-579): normalize the polar coordinates, return unchanged if
in-gamut, otherwise bisect chroma between 0 and the input chroma when the
gray point at this lightness is in-gamut; otherwise clamp the lightness
(the source writes `m_blackpointL` in both the too-low and the too-high
branch) and zero the chroma. -/
def nearestInGamutColorByAdjustingChroma (s : RgbColorSpaceState)
    (color : LchDouble) : LchDouble :=
  let temp := polarPointF color.c color.h
  let result : LchDouble := ⟨color.l, temp.m_radial, temp.m_angleDegree⟩
  if isInGamut s result then result
  else if isInGamut s ⟨result.l, 0, result.h⟩ then
    let p := chromaBisect (fun c => isInGamut s ⟨result.l, c, result.h⟩)
      (bisectFuel (result.c - 0)) (0, result.c)
    ⟨result.l, p.1, result.h⟩
  else if result.l < s.m_blackpointL then ⟨s.m_blackpointL, 0, result.h⟩
  else if s.m_whitepointL < result.l then ⟨s.m_blackpointL, 0, result.h⟩
  else result

/-- A `QImage` as the nearest-neighbor search reads it: dimensions and the
per-pixel alpha channel (`pixelColor(x, y).alpha()`). -/
structure QImage where
  width : ℕ
  height : ℕ
  alpha : ℕ → ℕ → ℕ

/-- `QImage::valid(point)`: the point lies inside the image. -/
def QImage.validPoint (img : QImage) (p : ℤ × ℤ) : Prop :=
  0 ≤ p.1 ∧ p.1 < img.width ∧ 0 ≤ p.2 ∧ p.2 < img.height

instance (img : QImage) (p : ℤ × ℤ) : Decidable (img.validPoint p) := by
  unfold QImage.validPoint; infer_instance

/-- `std::numeric_limits<int>::max()`, the initial best-distance sentinel. -/
def cppIntMax : ℤ := 2 ^ 31 - 1

/-- The squared Euclidean distance computed in the search loop
(rgbcolorspace.cpp lines 658-660). -/
def distSq (p : ℤ × ℤ) (q : ℕ × ℕ) : ℤ :=
  (p.1 - q.1) * (p.1 - q.1) + (p.2 - q.2) * (p.2 - q.2)

/-- The double `for` loop of `nearestNeighborSearch` (rgbcolorspace.cpp
lines 655-668) over an explicit coordinate list, threading the state
`(currentBestX, currentBestY, currentBestDistanceSquare)`. -/
def nnsLoop (p : ℤ × ℤ) (img : QImage) :
    List (ℕ × ℕ) → ℤ × ℤ × ℤ → ℤ × ℤ × ℤ
  | [], s => s
  | q :: rest, s =>
    if img.alpha q.1 q.2 = 255 then
      let temp := distSq p q
      if temp < s.2.2 then nnsLoop p img rest (q.1, q.2, temp)
      else nnsLoop p img rest s
    else nnsLoop p img rest s

/-- The coordinates visited by the loop: `x` from 0 to `width - 1` (outer),
`y` from 0 to `height - 1` (inner). -/
def allCoords (img : QImage) : List (ℕ × ℕ) :=
  (List.range img.width).flatMap fun x =>
    (List.range img.height).map fun y => (x, y)

/-- `RgbColorSpace::RgbColorSpacePrivate::nearestNeighborSearch`
(rgbcolorspace.cpp lines 635-670): return the query point when it is inside
the image and fully non-transparent; otherwise scan every pixel, keeping the
fully non-transparent one of least squared distance, starting from the
fallback `(0, 0)` with distance sentinel `INT_MAX`. -/
def nearestNeighborSearch (originalPoint : ℤ × ℤ) (image : QImage) : ℤ × ℤ :=
  if image.validPoint originalPoint ∧
      image.alpha originalPoint.1.toNat originalPoint.2.toNat = 255 then
    originalPoint
  else
    let s := nnsLoop originalPoint image (allCoords image) (0, 0, cppIntMax)
    (s.1, s.2.1)

/-! ### Concrete model instances used to exercise the definitions

The backend functions below are stand-ins for the external LittleCMS
transforms: the theorems quantify over arbitrary backends, and these
instances only serve to evaluate the engine at concrete inputs. -/

/-- A Lab→RGB transform whose output is always inside `[0, 1]`
(everything in gamut). -/
def fAllInGamut : CmsCIELab → RgbDouble := fun _ => ⟨1 / 2, 1 / 2, 1 / 2⟩

/-- A model LCh→Lab conversion (stand-in for the trigonometric
`cmsLCh2Lab`): stores the three coordinates unchanged. -/
def lchToLabModel : LchDouble → CmsCIELab := fun lch => ⟨lch.l, lch.c, lch.h⟩

/-- A model RGB→Lab transform (unused by the gamut routines). -/
def fRgbToLabModel : RgbDouble → CmsCIELab := fun _ => ⟨50, 0, 0⟩

/-- Backend whose gamut is everything. -/
def backendTrue : Backend :=
  ⟨some fAllInGamut, some fAllInGamut, some fRgbToLabModel, lchToLabModel⟩

/-- The color space `colorSpaceInit backendTrue` produces: the blackpoint
scan exits at once at lightness 0, the whitepoint scan at lightness 100. -/
def spaceTrue : RgbColorSpaceState := ⟨fAllInGamut, lchToLabModel, 0, 100⟩

/-- A Lab→RGB transform in gamut exactly on
`0.001 ≤ L ≤ 99.999` and `a ≤ 50` (via `lchToLabModel`: lightness in the
band and chroma at most 50). -/
def fBand : CmsCIELab → RgbDouble := fun lab =>
  if 1 / 1000 ≤ lab.L ∧ lab.L ≤ 99999 / 1000 ∧ lab.a ≤ 50 then
    ⟨1 / 2, 1 / 2, 1 / 2⟩
  else ⟨2, 2, 2⟩

/-- Backend built on `fBand`. -/
def backendBand : Backend :=
  ⟨some fBand, some fBand, some fRgbToLabModel, lchToLabModel⟩

/-- The color space `colorSpaceInit backendBand` produces:
blackpoint 0.001, whitepoint 99.999. -/
def spaceBand : RgbColorSpaceState :=
  ⟨fBand, lchToLabModel, 1 / 1000, 99999 / 1000⟩

/-- Backend whose float Lab→RGB transform failed to build. -/
def backendBroken : Backend :=
  ⟨none, some fAllInGamut, some fRgbToLabModel, lchToLabModel⟩

/-- A 2×2 test image whose only fully non-transparent pixel is `(1, 1)`. -/
def imgOneSolid : QImage :=
  ⟨2, 2, fun x y => if x = 1 ∧ y = 1 then 255 else 0⟩

/-- A 2×2 test image with no fully non-transparent pixel. -/
def imgNoSolid : QImage := ⟨2, 2, fun _ _ => 0⟩

/-- A pixel coordinate inside the image whose alpha is fully non-transparent
(`pixelColor(x, y).alpha() == 255`). -/
def solidAt (img : QImage) (q : ℕ × ℕ) : Prop :=
  q.1 < img.width ∧ q.2 < img.height ∧ img.alpha q.1 q.2 = 255

instance (img : QImage) (q : ℕ × ℕ) : Decidable (solidAt img q) := by
  unfold solidAt; infer_instance

/-! ### Lemmas about angle normalization and polar coordinates -/

theorem normalizedAngleDegree_mem (x : ℚ) :
    0 ≤ normalizedAngleDegree x ∧ normalizedAngleDegree x < 360 := by
  unfold normalizedAngleDegree fmodQ truncQ
  rcases lt_or_ge (x / 360) 0 with hx | hx
  · rw [if_pos hx]
    have h1 : (x / 360 : ℚ) ≤ (⌈x / 360⌉ : ℚ) := Int.le_ceil _
    have h2 : ((⌈x / 360⌉ : ℚ)) < x / 360 + 1 := Int.ceil_lt_add_one _
    split_ifs with h3
    · constructor <;> linarith
    · push_neg at h3
      constructor <;> linarith
  · rw [if_neg (not_lt.mpr hx)]
    have h1 : ((⌊x / 360⌋ : ℚ)) ≤ x / 360 := Int.floor_le _
    have h2 : (x / 360 : ℚ) < (⌊x / 360⌋ : ℚ) + 1 := Int.lt_floor_add_one _
    split_ifs with h3
    · constructor <;> linarith
    · push_neg at h3
      constructor <;> linarith

theorem normalizedAngleDegree_sub (x : ℚ) :
    ∃ k : ℤ, normalizedAngleDegree x = x - 360 * k := by
  unfold normalizedAngleDegree fmodQ
  split_ifs with h
  · exact ⟨truncQ (x / 360) - 1, by push_cast; ring⟩
  · exact ⟨truncQ (x / 360), by ring⟩

theorem normalizedAngleDegree_eq_self {x : ℚ} (h1 : 0 ≤ x) (h2 : x < 360) :
    normalizedAngleDegree x = x := by
  have hdiv : (0 : ℚ) ≤ x / 360 := by positivity
  have hfloor : ⌊x / 360⌋ = 0 := by
    rw [Int.floor_eq_zero_iff]
    exact ⟨hdiv, by rw [div_lt_one (by norm_num : (0:ℚ) < 360)] at *; linarith⟩
  have hfmod : fmodQ x 360 = x := by
    unfold fmodQ truncQ
    rw [if_neg (not_lt.mpr hdiv), hfloor]
    norm_num
  unfold normalizedAngleDegree
  rw [hfmod, if_neg (not_lt.mpr h1)]

theorem polarPointF_eq_self {c h : ℚ} (hc : 0 ≤ c) (hh1 : 0 ≤ h)
    (hh2 : h < 360) : polarPointF c h = ⟨c, h⟩ := by
  unfold polarPointF
  rw [if_neg (not_lt.mpr hc), normalizedAngleDegree_eq_self hh1 hh2]

/-- C9: for `radial < 0` the `PolarPointF` constructor stores the negated
radial and the angle shifted by 180° and reduced modulo 360 into `[0, 360)`;
every constructed value has `radial() ≥ 0` and `0 ≤ angleDegree() < 360`. -/
theorem polarPointF_normalizes (r a : ℚ) :
    (r < 0 → (polarPointF r a).radial = -r ∧
      ∃ k : ℤ, (polarPointF r a).angleDegree = a + 180 - 360 * k) ∧
    0 ≤ (polarPointF r a).radial ∧ 0 ≤ (polarPointF r a).angleDegree ∧
      (polarPointF r a).angleDegree < 360 := by
  refine ⟨fun hr => ?_, ?_⟩
  · unfold polarPointF PolarPointF.radial PolarPointF.angleDegree
    rw [if_pos hr]
    refine ⟨by ring, ?_⟩
    obtain ⟨k, hk⟩ := normalizedAngleDegree_sub (a + 180)
    exact ⟨k, by dsimp only; rw [hk]⟩
  · unfold polarPointF PolarPointF.radial PolarPointF.angleDegree
    split_ifs with hr
    · have hm := normalizedAngleDegree_mem (a + 180)
      exact ⟨by dsimp only; linarith, hm.1, hm.2⟩
    · push_neg at hr
      have hm := normalizedAngleDegree_mem a
      exact ⟨hr, hm.1, hm.2⟩

/-- Witness for C9 at the concrete input `(-5, 10)`. -/
theorem polarPointF_normalizes_witness :
    ((-5 : ℚ) < 0) ∧ (polarPointF (-5) 10).radial = -(-5) ∧
      ∃ k : ℤ, (polarPointF (-5) 10).angleDegree = 10 + 180 - 360 * k :=
  ⟨by norm_num, ((polarPointF_normalizes (-5) 10).1 (by norm_num)).1,
    ((polarPointF_normalizes (-5) 10).1 (by norm_num)).2⟩

/-- C10: `isSamePoint` returns `true` iff the radials are equal and either
the angles are equal or the radial is 0 (hue is meaningless at radius 0). -/
theorem isSamePoint_spec (p q : PolarPointF) :
    isSamePoint p q = true ↔
      p.radial = q.radial ∧ (p.angleDegree = q.angleDegree ∨ p.radial = 0) := by
  simp [isSamePoint, PolarPointF.radial, PolarPointF.angleDegree]

/-! ### Lemmas about the gray-axis scans and the chroma bisection -/

theorem scanUp_of_ge (g : LchDouble → Bool) (m : ℕ) {l : ℚ} (h : 100 ≤ l) :
    scanUp g m l = l := by
  cases m with
  | zero => rfl
  | succ n =>
    simp only [scanUp]
    rw [if_neg fun hc => absurd hc.2 (not_lt.mpr h)]

theorem scanUp_stable (g : LchDouble → Bool) :
    ∀ (n k : ℕ) (l : ℚ), 100 - l ≤ n * gamutPrecision →
      scanUp g (k + n) l = scanUp g n l := by
  intro n
  induction n with
  | zero =>
    intro k l h
    have hl : 100 ≤ l := by push_cast at h; linarith
    exact scanUp_of_ge g _ hl
  | succ n ih =>
    intro k l h
    show scanUp g ((k + n) + 1) l = scanUp g (n + 1) l
    simp only [scanUp]
    split_ifs with hc
    · apply ih
      have : ((n : ℚ) + 1) * gamutPrecision = n * gamutPrecision +
          gamutPrecision := by ring
      push_cast at h
      rw [this] at h
      linarith
    · rfl

theorem scanUp_exitCond (g : LchDouble → Bool) :
    ∀ (n : ℕ) (l : ℚ), 100 - l ≤ n * gamutPrecision →
      g ⟨scanUp g n l, 0, 0⟩ = true ∨ 100 ≤ scanUp g n l := by
  intro n
  induction n with
  | zero =>
    intro l h
    right
    show (100 : ℚ) ≤ l
    push_cast at h
    linarith
  | succ n ih =>
    intro l h
    simp only [scanUp]
    split_ifs with hc
    · apply ih
      have : ((n : ℚ) + 1) * gamutPrecision = n * gamutPrecision +
          gamutPrecision := by ring
      push_cast at h
      rw [this] at h
      linarith
    · cases hg : g ⟨l, 0, 0⟩ with
      | true => exact Or.inl rfl
      | false =>
        right
        by_contra h100
        exact hc ⟨hg, not_le.mp h100⟩

theorem scanDown_of_le (g : LchDouble → Bool) (m : ℕ) {l : ℚ} (h : l ≤ 0) :
    scanDown g m l = l := by
  cases m with
  | zero => rfl
  | succ n =>
    simp only [scanDown]
    rw [if_neg fun hc => absurd hc.2 (not_lt.mpr h)]

theorem scanDown_stable (g : LchDouble → Bool) :
    ∀ (n k : ℕ) (l : ℚ), l ≤ n * gamutPrecision →
      scanDown g (k + n) l = scanDown g n l := by
  intro n
  induction n with
  | zero =>
    intro k l h
    have hl : l ≤ 0 := by push_cast at h; linarith
    exact scanDown_of_le g _ hl
  | succ n ih =>
    intro k l h
    show scanDown g ((k + n) + 1) l = scanDown g (n + 1) l
    simp only [scanDown]
    split_ifs with hc
    · apply ih
      have : ((n : ℚ) + 1) * gamutPrecision = n * gamutPrecision +
          gamutPrecision := by ring
      push_cast at h
      rw [this] at h
      linarith
    · rfl

theorem scanDown_exitCond (g : LchDouble → Bool) :
    ∀ (n : ℕ) (l : ℚ), l ≤ n * gamutPrecision →
      g ⟨scanDown g n l, 0, 0⟩ = true ∨ scanDown g n l ≤ 0 := by
  intro n
  induction n with
  | zero =>
    intro l h
    right
    show l ≤ (0 : ℚ)
    push_cast at h
    linarith
  | succ n ih =>
    intro l h
    simp only [scanDown]
    split_ifs with hc
    · apply ih
      have : ((n : ℚ) + 1) * gamutPrecision = n * gamutPrecision +
          gamutPrecision := by ring
      push_cast at h
      rw [this] at h
      linarith
    · cases hg : g ⟨l, 0, 0⟩ with
      | true => exact Or.inl rfl
      | false =>
        right
        by_contra h0
        exact hc ⟨hg, not_le.mp h0⟩

theorem chromaBisect_exit (g : ℚ → Bool) {lo up : ℚ}
    (h : up - lo ≤ gamutPrecision) (m : ℕ) :
    chromaBisect g m (lo, up) = (lo, up) := by
  cases m with
  | zero => rfl
  | succ n =>
    simp only [chromaBisect]
    rw [if_neg (not_lt.mpr h)]

theorem chromaBisect_stable (g : ℚ → Bool) :
    ∀ (n k : ℕ) (lo up : ℚ), up - lo ≤ gamutPrecision * 2 ^ n →
      chromaBisect g (k + n) (lo, up) = chromaBisect g n (lo, up) := by
  intro n
  induction n with
  | zero =>
    intro k lo up h
    have h' : up - lo ≤ gamutPrecision := by simpa using h
    exact (chromaBisect_exit g h' (k + 0)).trans (chromaBisect_exit g h' 0).symm
  | succ n ih =>
    intro k lo up h
    have hhalf : (up - lo) / 2 ≤ gamutPrecision * 2 ^ n := by
      rw [pow_succ] at h
      linarith
    have e1 : up - (lo + up) / 2 = (up - lo) / 2 := by ring
    have e2 : (lo + up) / 2 - lo = (up - lo) / 2 := by ring
    show chromaBisect g ((k + n) + 1) (lo, up) = chromaBisect g (n + 1) (lo, up)
    simp only [chromaBisect]
    split_ifs with hc hg
    · exact ih k _ _ (by rw [e1]; exact hhalf)
    · exact ih k _ _ (by rw [e2]; exact hhalf)
    · rfl

theorem chromaBisect_width (g : ℚ → Bool) :
    ∀ (n : ℕ) (lo up : ℚ), up - lo ≤ gamutPrecision * 2 ^ n →
      (chromaBisect g n (lo, up)).2 - (chromaBisect g n (lo, up)).1 ≤
        gamutPrecision := by
  intro n
  induction n with
  | zero =>
    intro lo up h
    simpa using h
  | succ n ih =>
    intro lo up h
    have hhalf : (up - lo) / 2 ≤ gamutPrecision * 2 ^ n := by
      rw [pow_succ] at h
      linarith
    have e1 : up - (lo + up) / 2 = (up - lo) / 2 := by ring
    have e2 : (lo + up) / 2 - lo = (up - lo) / 2 := by ring
    simp only [chromaBisect]
    split_ifs with hc hg
    · exact ih _ _ (by rw [e1]; exact hhalf)
    · exact ih _ _ (by rw [e2]; exact hhalf)
    · simpa using not_lt.mp hc

theorem chromaBisect_bounds (g : ℚ → Bool) :
    ∀ (n : ℕ) (lo up : ℚ), lo ≤ up →
      lo ≤ (chromaBisect g n (lo, up)).1 ∧
      (chromaBisect g n (lo, up)).1 ≤ (chromaBisect g n (lo, up)).2 ∧
      (chromaBisect g n (lo, up)).2 ≤ up := by
  intro n
  induction n with
  | zero =>
    intro lo up h
    exact ⟨le_refl _, h, le_refl _⟩
  | succ n ih =>
    intro lo up h
    simp only [chromaBisect]
    split_ifs with hc hg
    · have hmid : (lo + up) / 2 ≤ up := by linarith
      obtain ⟨h1, h2, h3⟩ := ih ((lo + up) / 2) up hmid
      exact ⟨le_trans (by linarith) h1, h2, h3⟩
    · have hmid : lo ≤ (lo + up) / 2 := by linarith
      obtain ⟨h1, h2, h3⟩ := ih lo ((lo + up) / 2) hmid
      exact ⟨h1, h2, le_trans h3 (by linarith)⟩
    · exact ⟨le_refl _, h, le_refl _⟩

theorem bisectFuel_spec (w : ℚ) : w ≤ gamutPrecision * 2 ^ bisectFuel w := by
  unfold bisectFuel gamutPrecision
  rcases le_or_lt (1000 * w) 0 with h | h
  · have hpos : (0 : ℚ) < 1 / 1000 * 2 ^ (⌈(1000 : ℚ) * w⌉.toNat) := by
      positivity
    linarith
  · set n := (⌈(1000 : ℚ) * w⌉).toNat with hn
    have hceil : (0 : ℤ) ≤ ⌈(1000 : ℚ) * w⌉ :=
      Int.ceil_nonneg (by linarith : (0 : ℚ) ≤ 1000 * w)
    have hcast : ((n : ℤ)) = ⌈(1000 : ℚ) * w⌉ := Int.toNat_of_nonneg hceil
    have h1 : (1000 * w : ℚ) ≤ (n : ℚ) := by
      have hle := Int.le_ceil ((1000 : ℚ) * w)
      rw [← hcast] at hle
      exact_mod_cast hle
    have h2 : (n : ℚ) ≤ 2 ^ n := by
      have := Nat.lt_two_pow n
      exact_mod_cast this.le
    calc w = (1000 * w) / 1000 := by ring
    _ ≤ (n : ℚ) / 1000 := by linarith
    _ ≤ (2 ^ n : ℚ) / 1000 := by linarith
    _ = 1 / 1000 * 2 ^ n := by ring

/-- C8: the gamut searches terminate within fixed bounds. The gray-axis
scans advance by the fixed increment `gamutPrecision = 0.001` and are
unchanged by extra fuel beyond `scanFuel = 100001` condition checks (at most
100000 increments), stopping exactly when the gamut test succeeds or
lightness reaches 100 (respectively 0); the chroma bisection halves its
interval each step, is unchanged by extra fuel beyond `bisectFuel` of the
initial width, and its final interval width is at most `gamutPrecision`. -/
theorem gamut_searches_terminate :
    (∀ (g : LchDouble → Bool) (k : ℕ),
      scanUp g (k + scanFuel) 0 = scanUp g scanFuel 0) ∧
    (∀ (g : LchDouble → Bool) (k : ℕ),
      scanDown g (k + scanFuel) 100 = scanDown g scanFuel 100) ∧
    (∀ g : LchDouble → Bool,
      g ⟨scanUp g scanFuel 0, 0, 0⟩ = true ∨ 100 ≤ scanUp g scanFuel 0) ∧
    (∀ g : LchDouble → Bool,
      g ⟨scanDown g scanFuel 100, 0, 0⟩ = true ∨
        scanDown g scanFuel 100 ≤ 0) ∧
    (∀ (g : ℚ → Bool) (k : ℕ) (lo up : ℚ),
      chromaBisect g (k + bisectFuel (up - lo)) (lo, up) =
        chromaBisect g (bisectFuel (up - lo)) (lo, up)) ∧
    (∀ (g : ℚ → Bool) (lo up : ℚ),
      (chromaBisect g (bisectFuel (up - lo)) (lo, up)).2 -
        (chromaBisect g (bisectFuel (up - lo)) (lo, up)).1 ≤
          gamutPrecision) := by
  have hfuel : (100 : ℚ) - 0 ≤ scanFuel * gamutPrecision := by
    unfold scanFuel gamutPrecision
    push_cast
    norm_num
  have hfuel' : (100 : ℚ) ≤ scanFuel * gamutPrecision := by linarith
  refine ⟨fun g k => scanUp_stable g scanFuel k 0 hfuel,
    fun g k => scanDown_stable g scanFuel k 100 hfuel',
    fun g => scanUp_exitCond g scanFuel 0 hfuel,
    fun g => scanDown_exitCond g scanFuel 100 hfuel',
    fun g k lo up => chromaBisect_stable g (bisectFuel (up - lo)) k lo up
      (bisectFuel_spec (up - lo)),
    fun g lo up => chromaBisect_width g (bisectFuel (up - lo)) lo up
      (bisectFuel_spec (up - lo))⟩

/-! ### Lemmas about the nearest-neighbor search -/

theorem allCoords_mem (img : QImage) (q : ℕ × ℕ) :
    q ∈ allCoords img ↔ q.1 < img.width ∧ q.2 < img.height := by
  obtain ⟨a, b⟩ := q
  simp only [allCoords, List.mem_flatMap, List.mem_map, List.mem_range,
    Prod.mk.injEq]
  constructor
  · rintro ⟨x, hx, y, hy, rfl, rfl⟩
    exact ⟨hx, hy⟩
  · rintro ⟨ha, hb⟩
    exact ⟨a, ha, b, hb, rfl, rfl⟩

theorem nnsLoop_no_solid (p : ℤ × ℤ) (img : QImage) :
    ∀ (L : List (ℕ × ℕ)) (s : ℤ × ℤ × ℤ),
      (∀ q ∈ L, img.alpha q.1 q.2 ≠ 255) → nnsLoop p img L s = s := by
  intro L
  induction L with
  | nil => intro s _; rfl
  | cons q rest ih =>
    intro s h
    simp only [nnsLoop]
    rw [if_neg (h q (List.mem_cons_self q rest))]
    exact ih s fun r hr => h r (List.mem_cons_of_mem q hr)

theorem nnsLoop_good (p : ℤ × ℤ) (img : QImage) :
    ∀ (L : List (ℕ × ℕ)) (s : ℤ × ℤ × ℤ),
      (∀ q ∈ L, q.1 < img.width ∧ q.2 < img.height) →
      (∃ q0 : ℕ × ℕ, solidAt img q0 ∧ s = ((q0.1 : ℤ), (q0.2 : ℤ), distSq p q0)) →
      (∃ q1 : ℕ × ℕ, solidAt img q1 ∧
        nnsLoop p img L s = ((q1.1 : ℤ), (q1.2 : ℤ), distSq p q1)) ∧
      (nnsLoop p img L s).2.2 ≤ s.2.2 ∧
      ∀ q ∈ L, img.alpha q.1 q.2 = 255 →
        (nnsLoop p img L s).2.2 ≤ distSq p q := by
  intro L
  induction L with
  | nil =>
    intro s _ hs
    obtain ⟨q0, hsolid0, hseq⟩ := hs
    exact ⟨⟨q0, hsolid0, hseq⟩, le_refl _,
      fun q hq => absurd hq (List.not_mem_nil q)⟩
  | cons q rest ih =>
    intro s hb hs
    have hbq := hb q (List.mem_cons_self q rest)
    have hbrest : ∀ r ∈ rest, r.1 < img.width ∧ r.2 < img.height :=
      fun r hr => hb r (List.mem_cons_of_mem q hr)
    obtain ⟨q0, hsolid0, hseq⟩ := hs
    simp only [nnsLoop]
    split_ifs with ha ht
    · have hq : solidAt img q := ⟨hbq.1, hbq.2, ha⟩
      have hg := ih (q.1, q.2, distSq p q) hbrest ⟨q, hq, rfl⟩
      refine ⟨hg.1, le_trans hg.2.1 (le_of_lt ht), ?_⟩
      intro r hr hra
      rcases List.mem_cons.mp hr with rfl | hr'
      · exact hg.2.1
      · exact hg.2.2 r hr' hra
    · have hg := ih s hbrest ⟨q0, hsolid0, hseq⟩
      refine ⟨hg.1, hg.2.1, ?_⟩
      intro r hr hra
      rcases List.mem_cons.mp hr with rfl | hr'
      · exact le_trans hg.2.1 (not_lt.mp ht)
      · exact hg.2.2 r hr' hra
    · have hg := ih s hbrest ⟨q0, hsolid0, hseq⟩
      refine ⟨hg.1, hg.2.1, ?_⟩
      intro r hr hra
      rcases List.mem_cons.mp hr with rfl | hr'
      · exact absurd hra ha
      · exact hg.2.2 r hr' hra

theorem nnsLoop_entry (p : ℤ × ℤ) (img : QImage) :
    ∀ L : List (ℕ × ℕ),
      (∀ q ∈ L, q.1 < img.width ∧ q.2 < img.height) →
      (∀ q ∈ L, img.alpha q.1 q.2 = 255 → distSq p q < cppIntMax) →
      (∃ q ∈ L, img.alpha q.1 q.2 = 255) →
      ∃ q1 : ℕ × ℕ, solidAt img q1 ∧
        nnsLoop p img L (0, 0, cppIntMax) = ((q1.1 : ℤ), (q1.2 : ℤ), distSq p q1) ∧
        ∀ q ∈ L, img.alpha q.1 q.2 = 255 → distSq p q1 ≤ distSq p q := by
  intro L
  induction L with
  | nil =>
    rintro _ _ ⟨q, hq, _⟩
    exact absurd hq (List.not_mem_nil q)
  | cons q rest ih =>
    intro hb hd hex
    have hbq := hb q (List.mem_cons_self q rest)
    have hbrest : ∀ r ∈ rest, r.1 < img.width ∧ r.2 < img.height :=
      fun r hr => hb r (List.mem_cons_of_mem q hr)
    have hdrest : ∀ r ∈ rest, img.alpha r.1 r.2 = 255 →
        distSq p r < cppIntMax :=
      fun r hr => hd r (List.mem_cons_of_mem q hr)
    simp only [nnsLoop]
    split_ifs with ha ht
    · have hq : solidAt img q := ⟨hbq.1, hbq.2, ha⟩
      obtain ⟨⟨q1, hq1, heq⟩, hle, hall⟩ :=
        nnsLoop_good p img rest (q.1, q.2, distSq p q) hbrest ⟨q, hq, rfl⟩
      rw [heq] at hle hall
      refine ⟨q1, hq1, heq, ?_⟩
      intro r hr hra
      rcases List.mem_cons.mp hr with rfl | hr'
      · exact hle
      · exact hall r hr' hra
    · exact absurd (hd q (List.mem_cons_self q rest) ha) ht
    · have hex' : ∃ r ∈ rest, img.alpha r.1 r.2 = 255 := by
        obtain ⟨r, hr, hra⟩ := hex
        rcases List.mem_cons.mp hr with rfl | hr'
        · exact absurd hra ha
        · exact ⟨r, hr', hra⟩
      obtain ⟨q1, hq1, heq, hall⟩ := ih hbrest hdrest hex'
      refine ⟨q1, hq1, heq, ?_⟩
      intro r hr hra
      rcases List.mem_cons.mp hr with rfl | hr'
      · exact absurd hra ha
      · exact hall r hr' hra

/-- C7: with all candidate squared distances below the `INT_MAX` sentinel
(the defined-behavior regime of the C++ `int` arithmetic),
`nearestNeighborSearch` returns the query point when it is inside the image
and fully non-transparent; otherwise, when the image has at least one fully
non-transparent pixel, it returns a fully non-transparent pixel of minimal
squared Euclidean distance; otherwise it returns `(0, 0)`. -/
theorem nearestNeighborSearch_spec (p : ℤ × ℤ) (img : QImage)
    (hd : ∀ q ∈ allCoords img, img.alpha q.1 q.2 = 255 →
      distSq p q < cppIntMax) :
    ((img.validPoint p ∧ img.alpha p.1.toNat p.2.toNat = 255) →
      nearestNeighborSearch p img = p) ∧
    (¬(img.validPoint p ∧ img.alpha p.1.toNat p.2.toNat = 255) →
      (∃ q ∈ allCoords img, img.alpha q.1 q.2 = 255) →
      ∃ q1 : ℕ × ℕ, solidAt img q1 ∧
        nearestNeighborSearch p img = ((q1.1 : ℤ), (q1.2 : ℤ)) ∧
        ∀ q : ℕ × ℕ, solidAt img q → distSq p q1 ≤ distSq p q) ∧
    ((∀ q : ℕ × ℕ, ¬ solidAt img q) →
      nearestNeighborSearch p img = (0, 0)) := by
  refine ⟨?_, ?_, ?_⟩
  · intro h
    unfold nearestNeighborSearch
    rw [if_pos h]
  · intro hns hex
    unfold nearestNeighborSearch
    rw [if_neg hns]
    have hb : ∀ q ∈ allCoords img, q.1 < img.width ∧ q.2 < img.height :=
      fun q hq => (allCoords_mem img q).mp hq
    obtain ⟨q1, hq1, heq, hall⟩ :=
      nnsLoop_entry p img (allCoords img) hb hd hex
    refine ⟨q1, hq1, ?_, ?_⟩
    · show ((nnsLoop p img (allCoords img) (0, 0, cppIntMax)).1,
        (nnsLoop p img (allCoords img) (0, 0, cppIntMax)).2.1) = _
      rw [heq]
    · intro q hq
      exact hall q ((allCoords_mem img q).mpr ⟨hq.1, hq.2.1⟩) hq.2.2
  · intro hnone
    have hns : ¬(img.validPoint p ∧ img.alpha p.1.toNat p.2.toNat = 255) := by
      rintro ⟨hv, ha⟩
      obtain ⟨hv1, hv2, hv3, hv4⟩ := hv
      apply hnone (p.1.toNat, p.2.toNat)
      exact ⟨by omega, by omega, ha⟩
    unfold nearestNeighborSearch
    rw [if_neg hns]
    have hno : ∀ q ∈ allCoords img, img.alpha q.1 q.2 ≠ 255 :=
      fun q hq ha => hnone q ⟨((allCoords_mem img q).mp hq).1,
        ((allCoords_mem img q).mp hq).2, ha⟩
    show ((nnsLoop p img (allCoords img) (0, 0, cppIntMax)).1,
      (nnsLoop p img (allCoords img) (0, 0, cppIntMax)).2.1) = _
    rw [nnsLoop_no_solid p img (allCoords img) (0, 0, cppIntMax) hno]

/-- Witness for C7: on a 2×2 image whose only fully non-transparent pixel is
`(1, 1)`, the search from the outside point `(5, 5)` returns `(1, 1)`. -/
theorem nearestNeighborSearch_spec_witness :
    ∃ q1 : ℕ × ℕ, solidAt imgOneSolid q1 ∧
      nearestNeighborSearch (5, 5) imgOneSolid = ((q1.1 : ℤ), (q1.2 : ℤ)) ∧
      ∀ q : ℕ × ℕ, solidAt imgOneSolid q →
        distSq (5, 5) q1 ≤ distSq (5, 5) q :=
  (nearestNeighborSearch_spec (5, 5) imgOneSolid (by decide)).2.1 (by decide)
    (by decide)

/-! ### Construction and gamut-mapping theorems -/

theorem colorSpaceInit_some (f f16 : CmsCIELab → RgbDouble)
    (finv : RgbDouble → CmsCIELab) (l2l : LchDouble → CmsCIELab) :
    colorSpaceInit ⟨some f, some f16, some finv, l2l⟩ =
      (if scanDown (isInGamutWith f l2l) scanFuel 100 ≤
          scanUp (isInGamutWith f l2l) scanFuel 0 then
        Except.error InitFailure.grayAxisSearchFailed
      else Except.ok ⟨f, l2l, scanUp (isInGamutWith f l2l) scanFuel 0,
        scanDown (isInGamutWith f l2l) scanFuel 100⟩) := rfl

theorem colorSpaceInit_none1 (x : Option (CmsCIELab → RgbDouble))
    (y : Option (RgbDouble → CmsCIELab)) (l2l : LchDouble → CmsCIELab) :
    colorSpaceInit ⟨none, x, y, l2l⟩ =
      Except.error InitFailure.transformCreationFailed := rfl

theorem colorSpaceInit_none2 (f : CmsCIELab → RgbDouble)
    (y : Option (RgbDouble → CmsCIELab)) (l2l : LchDouble → CmsCIELab) :
    colorSpaceInit ⟨some f, none, y, l2l⟩ =
      Except.error InitFailure.transformCreationFailed := rfl

theorem colorSpaceInit_none3 (f f16 : CmsCIELab → RgbDouble)
    (l2l : LchDouble → CmsCIELab) :
    colorSpaceInit ⟨some f, some f16, none, l2l⟩ =
      Except.error InitFailure.transformCreationFailed := rfl

theorem createFromFile_tt (b : Backend) :
    createFromFile true true b =
      (match colorSpaceInit b with
       | Except.ok s => Except.ok s
       | Except.error e =>
         Except.error (CreationFailure.initFailed e)) := rfl

theorem colorSpaceInit_ok {b : Backend} {s : RgbColorSpaceState}
    (h : colorSpaceInit b = Except.ok s) :
    s.m_blackpointL < s.m_whitepointL := by
  obtain ⟨lr, lr16, rl, l2l⟩ := b
  cases lr with
  | none => rw [colorSpaceInit_none1] at h; exact absurd h (by simp)
  | some f =>
    cases lr16 with
    | none => rw [colorSpaceInit_none2] at h; exact absurd h (by simp)
    | some f16 =>
      cases rl with
      | none => rw [colorSpaceInit_none3] at h; exact absurd h (by simp)
      | some finv =>
        rw [colorSpaceInit_some] at h
        split_ifs at h with hle
        cases h
        exact not_le.mp hle

/-- C2: a successfully constructed color space always satisfies
`whitepointLightness > blackpointLightness`; a profile for which the
gray-axis search cannot establish this never yields a usable object. -/
theorem whitepoint_gt_blackpoint (b : Backend) (s : RgbColorSpaceState)
    (h : colorSpaceInit b = Except.ok s) :
    s.m_blackpointL < s.m_whitepointL :=
  colorSpaceInit_ok h

/-! Evaluation lemmas on the concrete model instances. -/

theorem fAllInGamut_inGamut (lch : LchDouble) :
    isInGamutWith fAllInGamut lchToLabModel lch = true := by
  norm_num [isInGamutWith, isInGamutLab, isInRange, fAllInGamut, lchToLabModel]

theorem fBand_inGamut (lch : LchDouble) :
    isInGamutWith fBand lchToLabModel lch =
      decide (1 / 1000 ≤ lch.l ∧ lch.l ≤ 99999 / 1000 ∧ lch.c ≤ 50) := by
  by_cases hmem : 1 / 1000 ≤ lch.l ∧ lch.l ≤ 99999 / 1000 ∧ lch.c ≤ 50
  · norm_num [isInGamutWith, isInGamutLab, isInRange, fBand, lchToLabModel,
      hmem]
  · norm_num [isInGamutWith, isInGamutLab, isInRange, fBand, lchToLabModel,
      hmem]

theorem spaceTrue_isInGamut (lch : LchDouble) :
    isInGamut spaceTrue lch = true :=
  fAllInGamut_inGamut lch

theorem spaceBand_isInGamut (lch : LchDouble) :
    isInGamut spaceBand lch =
      decide (1 / 1000 ≤ lch.l ∧ lch.l ≤ 99999 / 1000 ∧ lch.c ≤ 50) :=
  fBand_inGamut lch

theorem scanFuel_succ : scanFuel = 100000 + 1 := rfl

theorem scanUp_succ (g : LchDouble → Bool) (n : ℕ) (l : ℚ) :
    scanUp g (n + 1) l =
      if g ⟨l, 0, 0⟩ = false ∧ l < 100 then scanUp g n (l + gamutPrecision)
      else l := rfl

theorem scanDown_succ (g : LchDouble → Bool) (n : ℕ) (l : ℚ) :
    scanDown g (n + 1) l =
      if g ⟨l, 0, 0⟩ = false ∧ 0 < l then scanDown g n (l - gamutPrecision)
      else l := rfl

theorem scanUp_true_eval :
    scanUp (isInGamutWith fAllInGamut lchToLabModel) scanFuel 0 = 0 := by
  rw [scanFuel_succ, scanUp_succ, fAllInGamut_inGamut]
  simp

theorem scanDown_true_eval :
    scanDown (isInGamutWith fAllInGamut lchToLabModel) scanFuel 100 = 100 := by
  rw [scanFuel_succ, scanDown_succ, fAllInGamut_inGamut]
  simp

theorem colorSpaceInit_backendTrue :
    colorSpaceInit backendTrue = Except.ok spaceTrue := by
  show colorSpaceInit
    ⟨some fAllInGamut, some fAllInGamut, some fRgbToLabModel, lchToLabModel⟩ =
      Except.ok spaceTrue
  rw [colorSpaceInit_some, scanUp_true_eval, scanDown_true_eval,
    if_neg (by norm_num)]
  rfl

theorem scanUp_band_eval :
    scanUp (isInGamutWith fBand lchToLabModel) scanFuel 0 = 1 / 1000 := by
  rw [scanFuel_succ, scanUp_succ, fBand_inGamut]
  rw [if_pos (by norm_num)]
  rw [show (0 : ℚ) + gamutPrecision = 1 / 1000 by norm_num [gamutPrecision]]
  rw [show (100000 : ℕ) = 99999 + 1 from rfl, scanUp_succ, fBand_inGamut]
  rw [if_neg (by norm_num)]

theorem scanDown_band_eval :
    scanDown (isInGamutWith fBand lchToLabModel) scanFuel 100 =
      99999 / 1000 := by
  rw [scanFuel_succ, scanDown_succ, fBand_inGamut]
  rw [if_pos (by norm_num)]
  rw [show (100 : ℚ) - gamutPrecision = 99999 / 1000 by
    norm_num [gamutPrecision]]
  rw [show (100000 : ℕ) = 99999 + 1 from rfl, scanDown_succ, fBand_inGamut]
  rw [if_neg (by norm_num)]

theorem colorSpaceInit_backendBand :
    colorSpaceInit backendBand = Except.ok spaceBand := by
  show colorSpaceInit ⟨some fBand, some fBand, some fRgbToLabModel,
    lchToLabModel⟩ = Except.ok spaceBand
  rw [colorSpaceInit_some, scanUp_band_eval, scanDown_band_eval,
    if_neg (by norm_num)]
  rfl

/-- Witness for C2 on the all-in-gamut backend. -/
theorem whitepoint_gt_blackpoint_witness :
    colorSpaceInit backendTrue = Except.ok spaceTrue ∧
      spaceTrue.m_blackpointL < spaceTrue.m_whitepointL :=
  ⟨colorSpaceInit_backendTrue,
    whitepoint_gt_blackpoint backendTrue spaceTrue colorSpaceInit_backendTrue⟩

/-- C6: construction surfaces every failure as an error result with no
usable object — when any of the three transforms fails to build, and when
the gray-axis search does not find `whitepoint > blackpoint`; an `ok`
result always carries the invariant. -/
theorem createFromFile_failures_surface (io pr : Bool) (b : Backend) :
    ((b.labToRgb = none ∨ b.labToRgb16 = none ∨ b.rgbToLab = none) →
      ∃ e, createFromFile io pr b = Except.error e) ∧
    (∀ f : CmsCIELab → RgbDouble, b.labToRgb = some f →
      scanDown (isInGamutWith f b.lchToLab) scanFuel 100 ≤
        scanUp (isInGamutWith f b.lchToLab) scanFuel 0 →
      ∃ e, createFromFile io pr b = Except.error e) ∧
    (∀ s, createFromFile io pr b = Except.ok s →
      colorSpaceInit b = Except.ok s ∧
        s.m_blackpointL < s.m_whitepointL) := by
  obtain ⟨lr, lr16, rl, l2l⟩ := b
  refine ⟨?_, ?_, ?_⟩
  · intro h1
    cases io with
    | false => exact ⟨CreationFailure.fileOpenFailed, rfl⟩
    | true =>
      cases pr with
      | false => exact ⟨CreationFailure.profileParseFailed, rfl⟩
      | true =>
        have hinit : colorSpaceInit ⟨lr, lr16, rl, l2l⟩ =
            Except.error InitFailure.transformCreationFailed := by
          cases lr with
          | none => exact colorSpaceInit_none1 _ _ _
          | some f =>
            cases lr16 with
            | none => exact colorSpaceInit_none2 _ _ _
            | some f16 =>
              cases rl with
              | none => exact colorSpaceInit_none3 _ _ _
              | some finv =>
                rcases h1 with h1 | h1 | h1 <;>
                  exact absurd h1 (by simp)
        exact ⟨CreationFailure.initFailed InitFailure.transformCreationFailed,
          by rw [createFromFile_tt, hinit]⟩
  · intro f hf hscan
    dsimp only at hf hscan
    subst hf
    cases io with
    | false => exact ⟨CreationFailure.fileOpenFailed, rfl⟩
    | true =>
      cases pr with
      | false => exact ⟨CreationFailure.profileParseFailed, rfl⟩
      | true =>
        cases lr16 with
          | none =>
            exact ⟨CreationFailure.initFailed
              InitFailure.transformCreationFailed,
              by rw [createFromFile_tt, colorSpaceInit_none2]⟩
          | some f16 =>
            cases rl with
            | none =>
              exact ⟨CreationFailure.initFailed
                InitFailure.transformCreationFailed,
                by rw [createFromFile_tt, colorSpaceInit_none3]⟩
            | some finv =>
              have hinit : colorSpaceInit ⟨some f, some f16, some finv, l2l⟩ =
                  Except.error InitFailure.grayAxisSearchFailed := by
                rw [colorSpaceInit_some, if_pos hscan]
              exact ⟨CreationFailure.initFailed
                InitFailure.grayAxisSearchFailed,
                by rw [createFromFile_tt, hinit]⟩
  · intro s h
    cases io with
    | false => exact absurd h (by simp [createFromFile])
    | true =>
      cases pr with
      | false => exact absurd h (by simp [createFromFile])
      | true =>
        rw [createFromFile_tt] at h
        cases hc : colorSpaceInit ⟨lr, lr16, rl, l2l⟩ with
        | error e => rw [hc] at h; exact absurd h (by simp)
        | ok s' =>
          rw [hc] at h
          obtain rfl : s' = s := Except.ok.inj h
          exact ⟨rfl, colorSpaceInit_ok hc⟩

/-- Witness for C6 on a backend whose float transform failed to build. -/
theorem createFromFile_failures_surface_witness :
    backendBroken.labToRgb = none ∧
      ∃ e, createFromFile true true backendBroken = Except.error e :=
  ⟨rfl,
    (createFromFile_failures_surface true true backendBroken).1 (Or.inl rfl)⟩

/-- C5: `toQColorRgbUnbound` is invalid (`none`) iff some transformed
channel leaves `[0, 1]`; a valid result carries exactly the transformed
channel values (no clamping); the LCh overload is the Lab overload after
the LCh→Lab conversion. -/
theorem toQColorRgbUnbound_spec (s : RgbColorSpaceState) (lab : CmsCIELab) :
    (toQColorRgbUnboundLab s lab = none ↔
      ¬((0 ≤ (s.labToRgb lab).red ∧ (s.labToRgb lab).red ≤ 1) ∧
        (0 ≤ (s.labToRgb lab).green ∧ (s.labToRgb lab).green ≤ 1) ∧
        (0 ≤ (s.labToRgb lab).blue ∧ (s.labToRgb lab).blue ≤ 1))) ∧
    (∀ rgb : RgbDouble, toQColorRgbUnboundLab s lab = some rgb →
      rgb = s.labToRgb lab ∧
      (0 ≤ rgb.red ∧ rgb.red ≤ 1) ∧ (0 ≤ rgb.green ∧ rgb.green ≤ 1) ∧
      (0 ≤ rgb.blue ∧ rgb.blue ≤ 1)) ∧
    (∀ lch : LchDouble,
      toQColorRgbUnbound s lch = toQColorRgbUnboundLab s (s.lchToLab lch)) := by
  have hkey : (isInRange 0 (s.labToRgb lab).red 1 &&
      isInRange 0 (s.labToRgb lab).green 1 &&
      isInRange 0 (s.labToRgb lab).blue 1) = true ↔
      ((0 ≤ (s.labToRgb lab).red ∧ (s.labToRgb lab).red ≤ 1) ∧
       (0 ≤ (s.labToRgb lab).green ∧ (s.labToRgb lab).green ≤ 1) ∧
       (0 ≤ (s.labToRgb lab).blue ∧ (s.labToRgb lab).blue ≤ 1)) := by
    simp [isInRange, Bool.and_eq_true, and_assoc]
  refine ⟨?_, ?_, fun lch => rfl⟩
  · simp only [toQColorRgbUnboundLab]
    split_ifs with hc
    · rw [hkey] at hc
      simp [hc]
    · rw [hkey] at hc
      simp [hc]
  · intro rgb h
    simp only [toQColorRgbUnboundLab] at h
    split_ifs at h with hcond
    · rw [hkey] at hcond
      have hrgb : rgb = s.labToRgb lab := (Option.some.inj h).symm
      subst hrgb
      exact ⟨rfl, hcond⟩

/-- Witness for C5: a color inside the band yields exactly the transformed
channels. -/
theorem toQColorRgbUnbound_spec_witness :
    (⟨1 / 2, 1 / 2, 1 / 2⟩ : RgbDouble) = spaceBand.labToRgb ⟨50, 20, 0⟩ ∧
    (0 ≤ (⟨1 / 2, 1 / 2, 1 / 2⟩ : RgbDouble).red ∧
      (⟨1 / 2, 1 / 2, 1 / 2⟩ : RgbDouble).red ≤ 1) ∧
    (0 ≤ (⟨1 / 2, 1 / 2, 1 / 2⟩ : RgbDouble).green ∧
      (⟨1 / 2, 1 / 2, 1 / 2⟩ : RgbDouble).green ≤ 1) ∧
    (0 ≤ (⟨1 / 2, 1 / 2, 1 / 2⟩ : RgbDouble).blue ∧
      (⟨1 / 2, 1 / 2, 1 / 2⟩ : RgbDouble).blue ≤ 1) :=
  (toQColorRgbUnbound_spec spaceBand ⟨50, 20, 0⟩).2.1 ⟨1 / 2, 1 / 2, 1 / 2⟩
    (by norm_num [toQColorRgbUnboundLab, spaceBand, fBand, isInRange])

/-- C3: on an in-gamut LCh color of the data model's domain
(`chroma ≥ 0`, `0 ≤ hue < 360`, where the polar normalization is the
identity), `nearestInGamutColorByAdjustingChroma` returns the input
unchanged. -/
theorem nearest_identity_in_gamut (s : RgbColorSpaceState) (color : LchDouble)
    (hc : 0 ≤ color.c) (hh0 : 0 ≤ color.h) (hh1 : color.h < 360)
    (hg : isInGamut s color = true) :
    nearestInGamutColorByAdjustingChroma s color = color := by
  unfold nearestInGamutColorByAdjustingChroma
  rw [polarPointF_eq_self hc hh0 hh1]
  have hco : (⟨color.l, color.c, color.h⟩ : LchDouble) = color := rfl
  dsimp only
  rw [hco, if_pos hg]

/-- Witness for C3 at an in-gamut color of the band space. -/
theorem nearest_identity_in_gamut_witness :
    nearestInGamutColorByAdjustingChroma spaceBand ⟨50, 20, 0⟩ =
      ⟨50, 20, 0⟩ :=
  nearest_identity_in_gamut spaceBand ⟨50, 20, 0⟩ (by norm_num) (by norm_num)
    (by norm_num) (by rw [spaceBand_isInGamut]; norm_num)

/-- C4: on an out-of-gamut LCh color of the data model's domain, outside the
degenerate case (the gray point at this lightness is in-gamut), the result
of `nearestInGamutColorByAdjustingChroma` keeps lightness and hue and does
not increase chroma. -/
theorem nearest_reduces_chroma (s : RgbColorSpaceState) (color : LchDouble)
    (hc : 0 ≤ color.c) (hh0 : 0 ≤ color.h) (hh1 : color.h < 360)
    (hout : isInGamut s color = false)
    (hgray : isInGamut s ⟨color.l, 0, color.h⟩ = true) :
    (nearestInGamutColorByAdjustingChroma s color).l = color.l ∧
    (nearestInGamutColorByAdjustingChroma s color).c ≤ color.c ∧
    (nearestInGamutColorByAdjustingChroma s color).h = color.h := by
  unfold nearestInGamutColorByAdjustingChroma
  rw [polarPointF_eq_self hc hh0 hh1]
  have hco : (⟨color.l, color.c, color.h⟩ : LchDouble) = color := rfl
  dsimp only
  rw [hco, if_neg (by simp [hout]), if_pos hgray]
  refine ⟨rfl, ?_, rfl⟩
  obtain ⟨h1, h2, h3⟩ := chromaBisect_bounds
    (fun c => isInGamut s ⟨color.l, c, color.h⟩)
    (bisectFuel (color.c - 0)) 0 color.c hc
  exact le_trans h2 h3

/-- Witness for C4: chroma 60 at lightness 50 is outside the band space's
gamut, and the bisection result does not exceed 60. -/
theorem nearest_reduces_chroma_witness :
    (nearestInGamutColorByAdjustingChroma spaceBand ⟨50, 60, 0⟩).l = 50 ∧
    (nearestInGamutColorByAdjustingChroma spaceBand ⟨50, 60, 0⟩).c ≤ 60 ∧
    (nearestInGamutColorByAdjustingChroma spaceBand ⟨50, 60, 0⟩).h = 0 :=
  nearest_reduces_chroma spaceBand ⟨50, 60, 0⟩ (by norm_num) (by norm_num)
    (by norm_num) (by rw [spaceBand_isInGamut]; norm_num)
    (by rw [spaceBand_isInGamut]; norm_num)

/-- C1 (refuting evaluation): on the band space — which `colorSpaceInit`
really produces — the input lightness 99.9995 exceeds the whitepoint
99.999, yet the degenerate lightness clamp of
`nearestInGamutColorByAdjustingChroma` returns the blackpoint lightness
0.001 (the source writes `m_blackpointL` in the too-high branch as well),
although the whitepoint is strictly nearer to the input lightness. -/
theorem nearest_lightness_clamp_bug :
    colorSpaceInit backendBand = Except.ok spaceBand ∧
    spaceBand.m_blackpointL = 1 / 1000 ∧
    spaceBand.m_whitepointL = 99999 / 1000 ∧
    nearestInGamutColorByAdjustingChroma spaceBand ⟨199999 / 2000, 10, 0⟩ =
      ⟨spaceBand.m_blackpointL, 0, 0⟩ ∧
    |(199999 / 2000 : ℚ) - spaceBand.m_whitepointL| <
      |(199999 / 2000 : ℚ) - spaceBand.m_blackpointL| := by
  refine ⟨colorSpaceInit_backendBand, rfl, rfl, ?_, ?_⟩
  · unfold nearestInGamutColorByAdjustingChroma
    have hp : polarPointF (10 : ℚ) 0 = ⟨10, 0⟩ :=
      polarPointF_eq_self (by norm_num) (by norm_num) (by norm_num)
    dsimp only
    rw [hp]
    dsimp only
    simp only [spaceBand_isInGamut]
    rw [if_neg (by norm_num), if_neg (by norm_num),
      if_neg (by norm_num [spaceBand]), if_pos (by norm_num [spaceBand])]
  · show |(199999 / 2000 : ℚ) - 99999 / 1000| <
      |(199999 / 2000 : ℚ) - 1 / 1000|
    rw [abs_of_pos (by norm_num), abs_of_pos (by norm_num)]
    norm_num
